import Mathlib

/-!
# Verification of the `ap_client` client-logic layer

Shallow embedding of the repository's three source files:

* `src/logic.rs`   — the `ClientLogic` trait: message dispatch, the
  `Unsupported` error reply, and message construction;
* `src/client.rs`  — the `Client` driver: scripted phase, reactive phase,
  media-citation scanning of text bodies, and the media sink;
* `src/lib.rs`     — the `DibClient` node assembly and its supervisor loop.

Machine integers (`u8` node ids, `u64` session ids) are modelled as `Nat`;
no arithmetic in the modelled code can overflow or depends on wrap-around.
The thread-local random generator is modelled as a read-only stream
`Nat → Nat` together with a cursor index that each draw advances.
Channel interaction of the logic thread is modelled by a schedule: the
list of outcomes that the successive `select_biased!` invocations observe.
-/

namespace ApClient

/-- `wg_2024::network::NodeId` (a small integer identity). -/
abbrev NodeId := Nat

/-- `u64` session identifier. -/
abbrev SessionId := Nat

/-- `messages::TextRequest`: list the text resources, or fetch one by name. -/
inductive TextRequest where
  | list
  | text (name : String)
deriving DecidableEq, Repr

/-- `messages::MediaRequest`: list the media resources, or fetch one by name. -/
inductive MediaRequest where
  | list
  | media (name : String)
deriving DecidableEq, Repr

/-- `messages::ChatRequest`: client-list probe or send-message. -/
inductive ChatRequest where
  | clientList
  | send (dst : NodeId) (msg : String)
deriving DecidableEq, Repr

/-- `messages::ServerType` (opaque server-kind tag carried by discovery). -/
inductive ServerType where
  | textServer
  | mediaServer
  | chatServer
deriving DecidableEq, Repr

/-- `messages::RequestType`. -/
inductive RequestType where
  | textRequest (r : TextRequest)
  | mediaRequest (r : MediaRequest)
  | chatRequest (r : ChatRequest)
  | discoveryRequest
deriving DecidableEq, Repr

/-- `messages::TextResponse`. -/
inductive TextResponse where
  | textList (names : List String)
  | text (body : String)
  | notFound (name : String)
deriving DecidableEq, Repr

/-- `messages::MediaResponse` (media payload bytes as a list of `Nat`). -/
inductive MediaResponse where
  | mediaList (names : List String)
  | media (bytes : List Nat)
  | notFound (name : String)
deriving DecidableEq, Repr

/-- `messages::ChatResponse`. -/
inductive ChatResponse where
  | clientList (clients : List NodeId)
  | messageFrom (sender : NodeId) (msg : String)
  | messageSent
deriving DecidableEq, Repr

/-- `messages::ResponseType`. -/
inductive ResponseType where
  | textResponse (r : TextResponse)
  | mediaResponse (r : MediaResponse)
  | chatResponse (r : ChatResponse)
  | discoveryResponse (t : ServerType)
deriving DecidableEq, Repr

/-- `messages::ErrorType`.  The taxonomy of the `messages` crate is wider;
the client only ever constructs `Unsupported`, and treats every variant it
receives identically (log and ignore), so the remaining variants are
collapsed into an opaque `other` tag. -/
inductive ErrorType where
  | unsupported (r : RequestType)
  | other (tag : String)
deriving DecidableEq, Repr

/-- `messages::MessageType`. -/
inductive MessageType where
  | request (r : RequestType)
  | response (r : ResponseType)
  | error (e : ErrorType)
deriving DecidableEq, Repr

/-- `messages::Message`. -/
structure Message where
  source : NodeId
  destination : NodeId
  session_id : SessionId
  content : MessageType
deriving DecidableEq, Repr

/-! ## The media-citation scanner (`client.rs`, `process_text_response`)

The Rust code compiles the regex `\{\{\s*([^{}\s]+\.(png|jpe?g))\s*}}` and
iterates its non-overlapping leftmost matches over the body, pushing the
group-1 capture of each.  The scanner below is that regex hand-compiled to
a character-level function:

* `\s` is the Unicode White_Space class (the `regex` crate default);
* `[^{}\s]` is any character that is not a brace and not whitespace;
* after `{{` the greedy `\s*` is forced (whitespace and `[^{}\s]` are
  disjoint), the group `[^{}\s]+\.(png|jpe?g)` must cover exactly the
  maximal run of `[^{}\s]` characters (a shorter group would leave a
  `[^{}\s]` character in front of `\s*}}`, which can match neither arm),
  so the group matches iff the run ends in `.png`, `.jpg` or `.jpeg` with
  a non-empty remainder, and the capture is the whole run;
* the trailing `\s*` before `}}` is forced maximal for the same reason;
* on failure at a position the engine retries from the next position, and
  on success it resumes after the match. -/

/-- The Unicode White_Space class, i.e. the `\s` of the Rust `regex` crate. -/
def isWsChar (c : Char) : Bool :=
  let n := c.toNat
  (0x09 ≤ n && n ≤ 0x0D) || n == 0x20 || n == 0x85 || n == 0xA0 ||
  n == 0x1680 || (0x2000 ≤ n && n ≤ 0x200A) || n == 0x2028 || n == 0x2029 ||
  n == 0x202F || n == 0x205F || n == 0x3000

/-- The character class `[^{}\s]` of the citation regex. -/
def isNameChar (c : Char) : Bool :=
  !(c == '{' || c == '}' || isWsChar c)

/-- Split a maximal `[^{}\s]` run into `name` and extension: succeeds iff
the run ends in `.png`, `.jpg` or `.jpeg` preceded by at least one more
character, mirroring the suffix the group `[^{}\s]+\.(png|jpe?g)` must
leave at the end of the run. -/
def splitExt (run : List Char) : Option (List Char × List Char) :=
  match run.reverse with
  | 'g' :: 'n' :: 'p' :: '.' :: c :: pre => some ((c :: pre).reverse, ['p', 'n', 'g'])
  | 'g' :: 'p' :: 'j' :: '.' :: c :: pre => some ((c :: pre).reverse, ['j', 'p', 'g'])
  | 'g' :: 'e' :: 'p' :: 'j' :: '.' :: c :: pre => some ((c :: pre).reverse, ['j', 'p', 'e', 'g'])
  | _ => none

/-- One attempted regex match anchored at the head of `cs`: on success,
the group-1 capture and the remainder of the text after the match. -/
def tryCitation (cs : List Char) : Option (String × List Char) :=
  match cs with
  | '{' :: '{' :: rest1 =>
    let rest2 := rest1.dropWhile isWsChar
    let run := rest2.takeWhile isNameChar
    match splitExt run with
    | some _ =>
      match (rest2.dropWhile isNameChar).dropWhile isWsChar with
      | '}' :: '}' :: rest4 => some (String.mk run, rest4)
      | _ => none
    | none => none
  | _ => none

theorem length_dropWhile_le (p : Char → Bool) (l : List Char) :
    (l.dropWhile p).length ≤ l.length := by
  induction l with
  | nil => simp
  | cons c t ih =>
    by_cases h : p c
    · simp only [List.dropWhile_cons, h, if_true, List.length_cons]
      omega
    · simp [List.dropWhile_cons, h]

theorem tryCitation_length {cs : List Char} {cap : String} {rest : List Char}
    (h : tryCitation cs = some (cap, rest)) : rest.length < cs.length := by
  match cs with
  | [] => simp [tryCitation] at h
  | [c] =>
    cases c
    simp [tryCitation] at h
  | c1 :: c2 :: rest1 =>
    by_cases h1 : c1 = '{'
    · by_cases h2 : c2 = '{'
      · subst h1; subst h2
        simp only [tryCitation] at h
        have hd2 : (rest1.dropWhile isWsChar).length ≤ rest1.length :=
          length_dropWhile_le isWsChar rest1
        have hd3 : ((rest1.dropWhile isWsChar).dropWhile isNameChar).length ≤
            (rest1.dropWhile isWsChar).length :=
          length_dropWhile_le isNameChar (rest1.dropWhile isWsChar)
        have hd4 : (((rest1.dropWhile isWsChar).dropWhile isNameChar).dropWhile
            isWsChar).length ≤ ((rest1.dropWhile isWsChar).dropWhile isNameChar).length :=
          length_dropWhile_le isWsChar ((rest1.dropWhile isWsChar).dropWhile isNameChar)
        cases hsp : splitExt ((rest1.dropWhile isWsChar).takeWhile isNameChar) with
        | none => rw [hsp] at h; simp at h
        | some p =>
          rw [hsp] at h
          cases h3 : ((rest1.dropWhile isWsChar).dropWhile isNameChar).dropWhile isWsChar with
          | nil => rw [h3] at h; simp at h
          | cons d1 tl1 =>
            cases tl1 with
            | nil =>
              rw [h3] at h
              by_cases hd1 : d1 = '}' <;> simp [hd1] at h
            | cons d2 tl2 =>
              rw [h3] at h
              by_cases hd1 : d1 = '}'
              · by_cases hd2 : d2 = '}'
                · subst hd1; subst hd2
                  simp only [Option.some.injEq, Prod.mk.injEq] at h
                  have : tl2 = rest := h.2
                  subst this
                  rw [h3] at hd4
                  simp only [List.length_cons] at hd4 ⊢
                  omega
                · simp [hd1, hd2] at h
              · simp [hd1] at h
      · simp [tryCitation, h1, h2] at h
    · simp [tryCitation, h1] at h

/-- The full scan of `captures_iter` over the body, structurally recursive
on a fuel that the length of the text bounds: at each position try a match;
on success push the capture and resume after the match, otherwise advance
one character. -/
def scanCitationsAux : Nat → List Char → List String
  | 0, _ => []
  | fuel + 1, cs =>
    match tryCitation cs with
    | some (cap, rest) => cap :: scanCitationsAux fuel rest
    | none =>
      match cs with
      | [] => []
      | _ :: tail => scanCitationsAux fuel tail

/-- The full scan of `captures_iter` over the body. -/
def scanCitations (cs : List Char) : List String :=
  scanCitationsAux cs.length cs

theorem scanCitationsAux_nil (fuel : Nat) : scanCitationsAux fuel [] = [] := by
  cases fuel with
  | zero => rfl
  | succ f => rfl

theorem scanCitationsAux_congr :
    ∀ (fuel1 fuel2 : Nat) (cs : List Char), cs.length ≤ fuel1 →
      cs.length ≤ fuel2 → scanCitationsAux fuel1 cs = scanCitationsAux fuel2 cs := by
  intro fuel1
  induction fuel1 with
  | zero =>
    intro fuel2 cs h1 _
    have : cs = [] := List.length_eq_zero.mp (Nat.le_zero.mp h1)
    subst this
    rw [scanCitationsAux_nil, scanCitationsAux_nil]
  | succ f1 ih =>
    intro fuel2 cs h1 h2
    cases cs with
    | nil => rw [scanCitationsAux_nil, scanCitationsAux_nil]
    | cons c tail =>
      cases fuel2 with
      | zero => simp at h2
      | succ f2 =>
        simp only [scanCitationsAux]
        cases ht : tryCitation (c :: tail) with
        | some p =>
          obtain ⟨cap, rest⟩ := p
          have hlt := tryCitation_length ht
          simp only [List.length_cons] at hlt h1 h2
          dsimp only
          rw [ih f2 rest (by omega) (by omega)]
        | none =>
          simp only [List.length_cons] at h1 h2
          dsimp only
          rw [ih f2 tail (by omega) (by omega)]

theorem scanCitations_nil : scanCitations [] = [] := rfl

theorem scanCitations_pos {cs : List Char} {cap : String} {rest : List Char}
    (h : tryCitation cs = some (cap, rest)) :
    scanCitations cs = cap :: scanCitations rest := by
  cases cs with
  | nil => simp [tryCitation] at h
  | cons c tail =>
    have hlt := tryCitation_length h
    unfold scanCitations
    simp only [List.length_cons, scanCitationsAux, h]
    simp only [List.length_cons] at hlt
    rw [scanCitationsAux_congr tail.length rest.length rest (by omega) (by omega)]

theorem scanCitations_step {c : Char} {tail : List Char}
    (h : tryCitation (c :: tail) = none) :
    scanCitations (c :: tail) = scanCitations tail := by
  unfold scanCitations
  simp only [List.length_cons, scanCitationsAux, h]

/-! ## The logic layer (`logic.rs` and `client.rs`)

The thread-local generator `rand::rng()` is one stream per thread; every
`next_u64` call advances it.  It is modelled as a pure stream
`stream : Nat → Nat` with a cursor that each draw advances by one. -/

/-- `logic.rs`, `ClientLogic::create_message`. -/
def create_message (nid : NodeId) (session_id : SessionId) (destination : NodeId)
    (content : MessageType) : Message :=
  { source := nid, destination := destination, session_id := session_id, content := content }

/-- `logic.rs`, `ClientLogic::process_request`: echo the request inside an
`Unsupported` error addressed back to the sender under the same session. -/
def process_request (nid : NodeId) (session_id : SessionId) (src : NodeId)
    (r : RequestType) : Message :=
  create_message nid session_id src (.error (.unsupported r))

/-- The loop body of `client.rs`, `process_text_response`, `Text` arm: one
`MediaRequest(Media(cap))` per capture, each with a fresh session id drawn
from the generator, addressed to the server the text came from. -/
def mediaRequests (nid src : NodeId) (stream : Nat → Nat) (idx : Nat) :
    List String → List Message
  | [] => []
  | cap :: caps =>
    { source := nid, destination := src, session_id := stream idx,
      content := .request (.mediaRequest (.media cap)) } ::
      mediaRequests nid src stream (idx + 1) caps

/-- `client.rs`, `Client::process_text_response`.  Returns the messages
sent to the transmitter and the new generator cursor.  `TextList` only
logs (its re-request body is commented out in the source), `NotFound`
only logs a warning. -/
def process_text_response (nid : NodeId) (stream : Nat → Nat) (idx : Nat)
    (src : NodeId) : TextResponse → List Message × Nat
  | .textList _ => ([], idx)
  | .text body =>
    let caps := scanCitations body.data
    (mediaRequests nid src stream idx caps, idx + caps.length)
  | .notFound _ => ([], idx)

/-- `client.rs`, `Client::process_media_response`: no variant sends any
message.  `Media(bytes)` hands the payload to the media sink (modelled
separately as `openPngFromBytes`); the list and not-found variants log. -/
def process_media_response (idx : Nat) (_r : MediaResponse) : List Message × Nat :=
  ([], idx)

/-- `client.rs`, `Client::process_chat_response`: every variant only logs. -/
def process_chat_response (idx : Nat) (_r : ChatResponse) : List Message × Nat :=
  ([], idx)

/-- `client.rs`, `Client::process_discovery_response`: only logs. -/
def process_discovery_response (idx : Nat) (_t : ServerType) : List Message × Nat :=
  ([], idx)

/-- `client.rs`, `Client::process_response`: route by response family. -/
def process_response (nid : NodeId) (stream : Nat → Nat) (idx : Nat)
    (src : NodeId) : ResponseType → List Message × Nat
  | .textResponse r => process_text_response nid stream idx src r
  | .mediaResponse r => process_media_response idx r
  | .chatResponse r => process_chat_response idx r
  | .discoveryResponse t => process_discovery_response idx t

/-- `logic.rs`, `ClientLogic::process_message`: dispatch on the content,
returning the outbound messages and the new generator cursor.
`process_error` only logs a warning, so the error arm emits nothing. -/
def process_message (nid : NodeId) (stream : Nat → Nat) (idx : Nat)
    (m : Message) : List Message × Nat :=
  match m.content with
  | .request r => ([process_request nid m.session_id m.source r], idx)
  | .response r => process_response nid stream idx m.source r
  | .error _ => ([], idx)

/-! ## The logic-thread driver (`client.rs`, `Client::run`)

Each `select_biased!` over (command-rx, inbox-rx) is modelled by the
outcome it observes.  The biased priority of the command arm is resolved
inside the schedule; a schedule that runs out while a select is pending
leaves the thread blocked in that select. -/

/-- `logic.rs` `ClientCommand` (single variant). -/
inductive ClientCommand where
  | quit
deriving DecidableEq, Repr

/-- The outcome one `select_biased!` invocation observes. -/
inductive SelectOutcome where
  /-- The command arm yields `Ok(ClientCommand::Quit)`. -/
  | quitCmd
  /-- The command arm yields `Err` (channel closed): the code panics. -/
  | cmdClosed
  /-- The inbox arm yields `Ok(m)`. -/
  | inbound (m : Message)
  /-- The inbox arm yields `Err`: the code panics. -/
  | inboxClosed
deriving DecidableEq, Repr

/-- How the modelled thread left its driver loop. -/
inductive RunStatus where
  /-- `run` returned (reached only via `Quit` in the reactive loop). -/
  | terminated
  /-- The schedule ended while the thread was blocked in `select_biased!`. -/
  | blocked
  /-- A fatal channel error: the code called `panic!`. -/
  | panicked
deriving DecidableEq, Repr

/-- Phase B of `Client::run`: the reactive `loop` after the scripted list
is exhausted (or abandoned by a `break`). -/
def runReactive (nid : NodeId) (stream : Nat → Nat) (idx : Nat) :
    List SelectOutcome → List Message × RunStatus
  | [] => ([], .blocked)
  | .quitCmd :: _ => ([], .terminated)
  | .cmdClosed :: _ => ([], .panicked)
  | .inboxClosed :: _ => ([], .panicked)
  | .inbound m :: rest =>
    let p := process_message nid stream idx m
    let r := runReactive nid stream p.2 rest
    (p.1 ++ r.1, r.2)

/-- Phase A of `Client::run`: for each scripted `(destination, action)`
send `Request(action)` with a fresh session id, then block in one
`select_biased!`; `Quit` there breaks the `for` loop — falling through to
the reactive loop `runReactive`, not out of `run`.  The `thread::sleep`
between iterations has no observable effect in this model. -/
def runScripted (nid : NodeId) (stream : Nat → Nat) (idx : Nat) :
    List (NodeId × RequestType) → List SelectOutcome → List Message × RunStatus
  | [], events => runReactive nid stream idx events
  | (dst, action) :: acts, events =>
    let sent : Message :=
      { source := nid, destination := dst, session_id := stream idx,
        content := .request action }
    match events with
    | [] => ([sent], .blocked)
    | .quitCmd :: rest =>
      let r := runReactive nid stream (idx + 1) rest
      (sent :: r.1, r.2)
    | .cmdClosed :: _ => ([sent], .panicked)
    | .inboxClosed :: _ => ([sent], .panicked)
    | .inbound m :: rest =>
      let p := process_message nid stream (idx + 1) m
      let r := runScripted nid stream p.2 acts rest
      (sent :: (p.1 ++ r.1), r.2)

/-- `client.rs`, `Client::run` as a whole: the scripted phase over the
cloned action list, then the reactive phase. -/
def clientRun (nid : NodeId) (stream : Nat → Nat)
    (actions : List (NodeId × RequestType)) (events : List SelectOutcome) :
    List Message × RunStatus :=
  runScripted nid stream 0 actions events

/-! ## The node assembly (`lib.rs`)

`DibServerTrait::run` is modelled as the trace of its externally visible
effects, driven by the outcomes of the supervisor `recv` and by whether
each fan-out send succeeds.  The `#[allow(clippy::never_loop)]` supervisor
loop runs its body at most once: every arm either breaks or panics, so
only the first `recv` outcome matters.  Worker-thread spawn failure also
panics in the source; the model takes the three spawns as succeeding. -/

/-- Outcome of one `recv` on the supervisor command channel
(`Command` has the single variant `Quit`). -/
inductive SupOutcome where
  /-- `Ok(Command::Quit)`. -/
  | quitCmd
  /-- `Err` — the channel is closed; the code logs and panics. -/
  | closed
deriving DecidableEq, Repr

/-- Externally visible effects of the node assembly's `run`. -/
inductive NodeEffect where
  | installPanicHook
  | spawnThread (threadName : String)
  | sendQuit (worker : String)
  | joinThread (threadName : String)
deriving DecidableEq, Repr

/-- How the supervisor left `run`. -/
inductive NodeOutcome where
  | returned
  | blocked
  | panicked
deriving DecidableEq, Repr

/-- `lib.rs`, `DibClient::run` (the inherent method, lines 112–118): it
only installs the panic hook and returns at once. -/
def dibClientInherentRun : List NodeEffect × NodeOutcome :=
  ([.installPanicHook], .returned)

/-- `lib.rs`, `DibServerTrait::run` (default trait method): install the
panic hook, spawn the three named worker threads, block on the supervisor
command queue; on `Quit` fan out `Quit` to listener, logic, transmitter in
that order (a failed send panics), then join the three handles (join
errors swallowed) and return. -/
def dibServerRun (nodeId : Nat) (cmds : List SupOutcome)
    (listenerSendOk logicSendOk transmitterSendOk : Bool) :
    List NodeEffect × NodeOutcome :=
  let listenerName := "client_" ++ toString nodeId ++ "_listener"
  let transmitterName := "client_" ++ toString nodeId ++ "_transmitter"
  let logicName := "client_" ++ toString nodeId ++ "_logic"
  let pre : List NodeEffect :=
    [.installPanicHook, .spawnThread listenerName, .spawnThread transmitterName,
     .spawnThread logicName]
  match cmds with
  | [] => (pre, .blocked)
  | .closed :: _ => (pre, .panicked)
  | .quitCmd :: _ =>
    if listenerSendOk then
      if logicSendOk then
        if transmitterSendOk then
          (pre ++ [.sendQuit "listener", .sendQuit "logic", .sendQuit "transmitter",
                   .joinThread listenerName, .joinThread logicName,
                   .joinThread transmitterName], .returned)
        else (pre ++ [.sendQuit "listener", .sendQuit "logic"], .panicked)
      else (pre ++ [.sendQuit "listener"], .panicked)
    else (pre, .panicked)

/-! ## The media sink (`client.rs`, `Client::open_png_from_bytes`) -/

/-- Compile-target operating system (the three `#[cfg(target_os = ...)]`
arms of the source). -/
inductive Os where
  | windows
  | macos
  | linux
deriving DecidableEq, Repr

/-- Externally visible effects of the media sink. -/
inductive SinkEffect where
  /-- Decode the byte buffer, auto-detecting the format. -/
  | decodeImage
  /-- Save the decoded image at the given path (overwrites an existing file). -/
  | saveImage (path : String)
  /-- Spawn the viewer as a detached child process (never waited on). -/
  | spawnViewer (program : String) (args : List String)
deriving DecidableEq, Repr

/-- Result of the sink call (`std::io::Result<()>` or a panic). -/
inductive SinkResult where
  /-- `Ok(())`. -/
  | ok
  /-- `Err(e)` returned to the caller — only a viewer spawn failure. -/
  | ioError
  /-- An `.unwrap()` fired: decode or save failure is fatal. -/
  | panicked
deriving DecidableEq, Repr

/-- `rng.random_range(0..=100)`: uniform over the 101 values of the
inclusive range per the `rand` crate contract, modelled as the next raw
draw of the generator reduced to the range. -/
def randomRange0To100 (draw : Nat) : Nat :=
  draw % 101

/-- `client.rs`, `Client::open_png_from_bytes`.  `decodeOk`/`saveOk`
stand for the fallible decode and save of the opaque image library,
`spawnOk` for the viewer process spawn, `draw` for the random draw, and
`tempDir` for `std::env::temp_dir()`. -/
def open_png_from_bytes (os : Os) (tempDir : String) (decodeOk : Bool)
    (draw : Nat) (saveOk spawnOk : Bool) : List SinkEffect × SinkResult :=
  if decodeOk then
    let n := randomRange0To100 draw
    let path := tempDir ++ "/image_" ++ toString n ++ ".png"
    if saveOk then
      let viewer : String × List String :=
        match os with
        | .windows => ("cmd", ["/C", path])
        | .macos => ("open", [path])
        | .linux => ("xdg-open", [path])
      if spawnOk then
        ([.decodeImage, .saveImage path, .spawnViewer viewer.1 viewer.2], .ok)
      else
        ([.decodeImage, .saveImage path, .spawnViewer viewer.1 viewer.2], .ioError)
    else ([.decodeImage, .saveImage path], .panicked)
  else ([.decodeImage], .panicked)

/-! ## Declarative reading of the citation grammar

The spec gives the grammar bit-exactly:
`citation := "{{" whitespace* name "." ext whitespace* "}}"` with
`name` one or more characters none of which are whitespace, `{` or `}`,
and `ext ∈ {png, jpg, jpeg}`; the capture is `name "." ext`. -/

/-- The three extension literals of the grammar. -/
def extLits : List (List Char) :=
  [['p', 'n', 'g'], ['j', 'p', 'g'], ['j', 'p', 'e', 'g']]

/-- A citation of the grammar sits at the head of `cs`, captures `cap`,
and leaves `rest` after its closing braces. -/
def CitationMatch (cs : List Char) (cap : String) (rest : List Char) : Prop :=
  ∃ ws1 name ext ws2 : List Char,
    cs = '{' :: '{' :: (ws1 ++ (name ++ ('.' :: (ext ++ (ws2 ++ ('}' :: '}' :: rest)))))) ∧
    (∀ c ∈ ws1, isWsChar c = true) ∧
    (∀ c ∈ ws2, isWsChar c = true) ∧
    name ≠ [] ∧
    (∀ c ∈ name, isNameChar c = true) ∧
    ext ∈ extLits ∧
    cap = String.mk (name ++ '.' :: ext)

theorem nameChar_not_ws {c : Char} (h : isNameChar c = true) : isWsChar c = false := by
  by_contra hw
  simp only [Bool.not_eq_false] at hw
  simp [isNameChar, hw] at h

theorem ws_not_nameChar {c : Char} (h : isWsChar c = true) : isNameChar c = false := by
  simp [isNameChar, h]

theorem ext_chars_nameChar {e : List Char} (h : e ∈ extLits) :
    ∀ c ∈ e, isNameChar c = true := by
  simp only [extLits, List.mem_cons, List.not_mem_nil, or_false] at h
  rcases h with h | h | h <;> subst h <;> decide

theorem takeWhile_append_all {p : Char → Bool} {xs : List Char} (ys : List Char)
    (h : ∀ c ∈ xs, p c = true) :
    (xs ++ ys).takeWhile p = xs ++ ys.takeWhile p := by
  induction xs with
  | nil => simp
  | cons c t ih =>
    rw [List.cons_append, List.takeWhile_cons_of_pos (h c (by simp)),
      ih (fun d hd => h d (by simp [hd]))]
    simp

theorem dropWhile_append_all {p : Char → Bool} {xs : List Char} (ys : List Char)
    (h : ∀ c ∈ xs, p c = true) :
    (xs ++ ys).dropWhile p = ys.dropWhile p := by
  induction xs with
  | nil => simp
  | cons c t ih =>
    rw [List.cons_append, List.dropWhile_cons_of_pos (h c (by simp)),
      ih (fun d hd => h d (by simp [hd]))]

theorem takeWhile_append_eq_left {p : Char → Bool} {xs ys : List Char}
    (h1 : ∀ c ∈ xs, p c = true) (h2 : ∀ y t, ys = y :: t → p y = false) :
    (xs ++ ys).takeWhile p = xs := by
  rw [takeWhile_append_all ys h1]
  cases ys with
  | nil => simp
  | cons y t =>
    rw [List.takeWhile_cons_of_neg (by simp [h2 y t rfl]), List.append_nil]

theorem dropWhile_append_eq_right {p : Char → Bool} {xs ys : List Char}
    (h1 : ∀ c ∈ xs, p c = true) (h2 : ∀ y t, ys = y :: t → p y = false) :
    (xs ++ ys).dropWhile p = ys := by
  rw [dropWhile_append_all ys h1]
  cases ys with
  | nil => simp
  | cons y t =>
    rw [List.dropWhile_cons_of_neg (by simp [h2 y t rfl])]

theorem splitExt_eq_some {run n e : List Char}
    (h : splitExt run = some (n, e)) :
    run = n ++ '.' :: e ∧ n ≠ [] ∧ e ∈ extLits := by
  unfold splitExt at h
  split at h
  · rename_i c pre heq
    injection h with h2
    injection h2 with hn he
    have hrun : run = ((c :: pre).reverse : List Char) ++ ['.', 'p', 'n', 'g'] := by
      have := congrArg List.reverse heq
      simpa using this
    subst hn; subst he
    refine ⟨by simpa using hrun, by simp, by simp [extLits]⟩
  · rename_i c pre heq
    injection h with h2
    injection h2 with hn he
    have hrun : run = ((c :: pre).reverse : List Char) ++ ['.', 'j', 'p', 'g'] := by
      have := congrArg List.reverse heq
      simpa using this
    subst hn; subst he
    refine ⟨by simpa using hrun, by simp, by simp [extLits]⟩
  · rename_i c pre heq
    injection h with h2
    injection h2 with hn he
    have hrun : run = ((c :: pre).reverse : List Char) ++ ['.', 'j', 'p', 'e', 'g'] := by
      have := congrArg List.reverse heq
      simpa using this
    subst hn; subst he
    refine ⟨by simpa using hrun, by simp, by simp [extLits]⟩
  · cases h

theorem splitExt_isSome {name ext : List Char} (hname : name ≠ [])
    (hext : ext ∈ extLits) :
    ∃ p, splitExt (name ++ '.' :: ext) = some p := by
  obtain ⟨c, pre, hcp⟩ : ∃ c pre, name.reverse = c :: pre := by
    cases hn : name.reverse with
    | nil => exact absurd (by simpa using congrArg List.reverse hn) hname
    | cons c pre => exact ⟨c, pre, rfl⟩
  simp only [extLits, List.mem_cons, List.not_mem_nil, or_false] at hext
  rcases hext with h | h | h <;> subst h
  · have hr : ((name ++ '.' :: (['p', 'n', 'g'] : List Char)).reverse) =
        'g' :: 'n' :: 'p' :: '.' :: c :: pre := by
      simp [List.reverse_append, hcp]
    exact ⟨(pre.reverse ++ [c], ['p', 'n', 'g']), by simp [splitExt, hr]⟩
  · have hr : ((name ++ '.' :: (['j', 'p', 'g'] : List Char)).reverse) =
        'g' :: 'p' :: 'j' :: '.' :: c :: pre := by
      simp [List.reverse_append, hcp]
    exact ⟨(pre.reverse ++ [c], ['j', 'p', 'g']), by simp [splitExt, hr]⟩
  · have hr : ((name ++ '.' :: (['j', 'p', 'e', 'g'] : List Char)).reverse) =
        'g' :: 'e' :: 'p' :: 'j' :: '.' :: c :: pre := by
      simp [List.reverse_append, hcp]
    exact ⟨(pre.reverse ++ [c], ['j', 'p', 'e', 'g']), by simp [splitExt, hr]⟩

theorem takeWhile_ws_brace {ws2 : List Char} (tail : List Char)
    (h : ∀ c ∈ ws2, isWsChar c = true) :
    (ws2 ++ '}' :: tail).takeWhile isNameChar = [] := by
  cases ws2 with
  | nil => exact List.takeWhile_cons_of_neg (by decide)
  | cons w t =>
    rw [List.cons_append]
    exact List.takeWhile_cons_of_neg (by simp [ws_not_nameChar (h w (by simp))])

theorem dropWhile_ws_brace {ws2 : List Char} (tail : List Char)
    (h : ∀ c ∈ ws2, isWsChar c = true) :
    (ws2 ++ '}' :: tail).dropWhile isNameChar = ws2 ++ '}' :: tail := by
  cases ws2 with
  | nil => exact List.dropWhile_cons_of_neg (by decide)
  | cons w t =>
    rw [List.cons_append]
    rw [List.dropWhile_cons_of_neg (by simp [ws_not_nameChar (h w (by simp))])]

theorem takeWhile_glue {name ext ws2 : List Char} (rest : List Char)
    (hn : ∀ c ∈ name, isNameChar c = true)
    (he : ∀ c ∈ ext, isNameChar c = true)
    (hw : ∀ c ∈ ws2, isWsChar c = true) :
    ((name ++ ('.' :: (ext ++ (ws2 ++ ('}' :: rest))))
      : List Char)).takeWhile isNameChar = name ++ '.' :: ext := by
  rw [takeWhile_append_all _ hn, List.takeWhile_cons_of_pos (by decide),
    takeWhile_append_all _ he, takeWhile_ws_brace rest hw, List.append_nil]

theorem dropWhile_glue {name ext ws2 : List Char} (rest : List Char)
    (hn : ∀ c ∈ name, isNameChar c = true)
    (he : ∀ c ∈ ext, isNameChar c = true)
    (hw : ∀ c ∈ ws2, isWsChar c = true) :
    ((name ++ ('.' :: (ext ++ (ws2 ++ ('}' :: rest))))
      : List Char)).dropWhile isNameChar = ws2 ++ '}' :: rest := by
  rw [dropWhile_append_all _ hn, List.dropWhile_cons_of_pos (by decide),
    dropWhile_append_all _ he, dropWhile_ws_brace rest hw]

theorem tryCitation_of_match {cs : List Char} {cap : String} {rest : List Char}
    (h : CitationMatch cs cap rest) : tryCitation cs = some (cap, rest) := by
  obtain ⟨ws1, name, ext, ws2, hcs, hws1, hws2, hname, hnamec, hext, hcap⟩ := h
  subst hcs
  have hextc : ∀ c ∈ ext, isNameChar c = true := ext_chars_nameChar hext
  have e1 : ((ws1 ++ (name ++ ('.' :: (ext ++ (ws2 ++ ('}' :: '}' :: rest)))))
      : List Char)).dropWhile isWsChar =
      name ++ ('.' :: (ext ++ (ws2 ++ ('}' :: '}' :: rest)))) := by
    rw [dropWhile_append_all _ hws1]
    cases name with
    | nil => exact absurd rfl hname
    | cons c0 t =>
      rw [List.cons_append]
      exact List.dropWhile_cons_of_neg
        (by simp [nameChar_not_ws (hnamec c0 (by simp))])
  have etake := @takeWhile_glue name ext ws2 ('}' :: rest) hnamec hextc hws2
  have edrop := @dropWhile_glue name ext ws2 ('}' :: rest) hnamec hextc hws2
  have edrop3 : ((ws2 ++ '}' :: '}' :: rest : List Char)).dropWhile isWsChar =
      '}' :: '}' :: rest := by
    rw [dropWhile_append_all _ hws2]
    exact List.dropWhile_cons_of_neg (by decide)
  obtain ⟨p, hp⟩ := splitExt_isSome hname hext
  simp only [tryCitation, e1, etake, edrop, edrop3, hp, hcap]

theorem match_of_tryCitation {cs : List Char} {cap : String} {rest : List Char}
    (h : tryCitation cs = some (cap, rest)) : CitationMatch cs cap rest := by
  match cs with
  | [] => simp [tryCitation] at h
  | [c] =>
    cases c
    simp [tryCitation] at h
  | c1 :: c2 :: rest1 =>
    by_cases h1 : c1 = '{'
    · by_cases h2 : c2 = '{'
      · subst h1; subst h2
        simp only [tryCitation] at h
        cases hsp : splitExt ((rest1.dropWhile isWsChar).takeWhile isNameChar) with
        | none => rw [hsp] at h; simp at h
        | some p =>
          obtain ⟨n, e⟩ := p
          rw [hsp] at h
          obtain ⟨hrun, hnne, hextmem⟩ := splitExt_eq_some hsp
          cases h3 : ((rest1.dropWhile isWsChar).dropWhile isNameChar).dropWhile
              isWsChar with
          | nil => rw [h3] at h; simp at h
          | cons d1 tl1 =>
            cases tl1 with
            | nil =>
              rw [h3] at h
              by_cases hd1 : d1 = '}' <;> simp [hd1] at h
            | cons d2 tl2 =>
              rw [h3] at h
              by_cases hd1 : d1 = '}'
              · by_cases hd2 : d2 = '}'
                · subst hd1; subst hd2
                  simp only [Option.some.injEq, Prod.mk.injEq] at h
                  obtain ⟨hcap, hrest⟩ := h
                  subst hrest
                  refine ⟨rest1.takeWhile isWsChar, n, e,
                    ((rest1.dropWhile isWsChar).dropWhile isNameChar).takeWhile
                      isWsChar, ?_, ?_, ?_, hnne, ?_, hextmem, ?_⟩
                  · have hA : rest1.takeWhile isWsChar ++ rest1.dropWhile isWsChar
                        = rest1 := List.takeWhile_append_dropWhile isWsChar rest1
                    have hB : (rest1.dropWhile isWsChar).takeWhile isNameChar ++
                        (rest1.dropWhile isWsChar).dropWhile isNameChar =
                        rest1.dropWhile isWsChar :=
                      List.takeWhile_append_dropWhile isNameChar
                        (rest1.dropWhile isWsChar)
                    have hC : ((rest1.dropWhile isWsChar).dropWhile
                        isNameChar).takeWhile isWsChar ++
                        ((rest1.dropWhile isWsChar).dropWhile
                          isNameChar).dropWhile isWsChar =
                        (rest1.dropWhile isWsChar).dropWhile isNameChar :=
                      List.takeWhile_append_dropWhile isWsChar
                        ((rest1.dropWhile isWsChar).dropWhile isNameChar)
                    rw [h3] at hC
                    rw [hrun] at hB
                    simp only [List.cons.injEq, true_and]
                    conv_lhs => rw [← hA, ← hB, ← hC]
                    simp [List.append_assoc]
                  · intro c hc
                    exact List.mem_takeWhile_imp hc
                  · intro c hc
                    exact List.mem_takeWhile_imp hc
                  · intro c hc
                    have : c ∈ (rest1.dropWhile isWsChar).takeWhile isNameChar := by
                      rw [hrun]
                      exact List.mem_append.mpr (Or.inl hc)
                    exact List.mem_takeWhile_imp this
                  · rw [← hcap, hrun]
                · simp [hd1, hd2] at h
              · simp [hd1] at h
      · simp [tryCitation, h1, h2] at h
    · simp [tryCitation, h1] at h

/-- The scanner's anchored match agrees exactly with the declarative
citation grammar. -/
theorem tryCitation_iff_citationMatch (cs : List Char) (cap : String)
    (rest : List Char) :
    tryCitation cs = some (cap, rest) ↔ CitationMatch cs cap rest :=
  ⟨match_of_tryCitation, tryCitation_of_match⟩

/-! ## Supporting lemmas for the claim theorems -/

theorem mediaRequests_map (nid src : NodeId) (stream : Nat → Nat) :
    ∀ (caps : List String) (idx : Nat),
      (mediaRequests nid src stream idx caps).map
          (fun m => (m.source, m.destination, m.content)) =
        caps.map (fun cap =>
          (nid, src, MessageType.request (.mediaRequest (.media cap)))) := by
  intro caps
  induction caps with
  | nil => intro idx; rfl
  | cons cap caps ih =>
    intro idx
    simp only [mediaRequests, List.map_cons, ih]

theorem mediaRequests_source {nid src : NodeId} {stream : Nat → Nat} :
    ∀ {caps : List String} {idx : Nat} {m : Message},
      m ∈ mediaRequests nid src stream idx caps → m.source = nid := by
  intro caps
  induction caps with
  | nil => intro idx m hm; simp [mediaRequests] at hm
  | cons cap caps ih =>
    intro idx m hm
    simp only [mediaRequests, List.mem_cons] at hm
    rcases hm with hm | hm
    · rw [hm]
    · exact ih hm

theorem process_message_source {nid : NodeId} {stream : Nat → Nat} {idx : Nat}
    {msg m : Message} (hm : m ∈ (process_message nid stream idx msg).1) :
    m.source = nid := by
  rcases msg with ⟨src, dst, sid, content⟩
  cases content with
  | request r =>
    simp only [process_message, List.mem_singleton] at hm
    rw [hm]
    rfl
  | error e => simp [process_message] at hm
  | response r =>
    cases r with
    | textResponse tr =>
      cases tr with
      | textList names => simp [process_message, process_response,
          process_text_response] at hm
      | text body =>
        simp only [process_message, process_response,
          process_text_response] at hm
        exact mediaRequests_source hm
      | notFound name => simp [process_message, process_response,
          process_text_response] at hm
    | mediaResponse mr => simp [process_message, process_response,
        process_media_response] at hm
    | chatResponse cr => simp [process_message, process_response,
        process_chat_response] at hm
    | discoveryResponse t => simp [process_message, process_response,
        process_discovery_response] at hm

theorem runReactive_source {nid : NodeId} {stream : Nat → Nat} :
    ∀ {events : List SelectOutcome} {idx : Nat} {m : Message},
      m ∈ (runReactive nid stream idx events).1 → m.source = nid := by
  intro events
  induction events with
  | nil => intro idx m hm; simp [runReactive] at hm
  | cons ev rest ih =>
    intro idx m hm
    cases ev with
    | quitCmd => simp [runReactive] at hm
    | cmdClosed => simp [runReactive] at hm
    | inboxClosed => simp [runReactive] at hm
    | inbound msg =>
      simp only [runReactive, List.mem_append] at hm
      rcases hm with hm | hm
      · exact process_message_source hm
      · exact ih hm

theorem runScripted_source {nid : NodeId} {stream : Nat → Nat} :
    ∀ {actions : List (NodeId × RequestType)} {events : List SelectOutcome}
      {idx : Nat} {m : Message},
      m ∈ (runScripted nid stream idx actions events).1 → m.source = nid := by
  intro actions
  induction actions with
  | nil =>
    intro events idx m hm
    exact runReactive_source hm
  | cons act acts ih =>
    intro events idx m hm
    obtain ⟨dst, action⟩ := act
    cases events with
    | nil =>
      simp only [runScripted, List.mem_singleton] at hm
      rw [hm]
    | cons ev rest =>
      cases ev with
      | quitCmd =>
        simp only [runScripted, List.mem_cons] at hm
        rcases hm with hm | hm
        · rw [hm]
        · exact runReactive_source hm
      | cmdClosed =>
        simp only [runScripted, List.mem_singleton] at hm
        rw [hm]
      | inboxClosed =>
        simp only [runScripted, List.mem_singleton] at hm
        rw [hm]
      | inbound msg =>
        simp only [runScripted, List.mem_cons, List.mem_append] at hm
        rcases hm with hm | hm | hm
        · rw [hm]
        · exact process_message_source hm
        · exact ih hm

theorem eq_of_dotfree_first_component :
    ∀ {A1 A2 B1 B2 : List Char}, (∀ c ∈ A1, c ≠ '.') → (∀ c ∈ A2, c ≠ '.') →
      A1 ++ '.' :: B1 = A2 ++ '.' :: B2 → A1 = A2 := by
  intro A1
  induction A1 with
  | nil =>
    intro A2 B1 B2 _ h2 heq
    cases A2 with
    | nil => rfl
    | cons a2 t2 =>
      simp only [List.nil_append, List.cons_append, List.cons.injEq] at heq
      exact absurd heq.1.symm (h2 a2 (by simp))
  | cons a1 t1 ih =>
    intro A2 B1 B2 h1 h2 heq
    cases A2 with
    | nil =>
      simp only [List.nil_append, List.cons_append, List.cons.injEq] at heq
      exact absurd heq.1 (h1 a1 (by simp))
    | cons a2 t2 =>
      simp only [List.cons_append, List.cons.injEq] at heq
      rw [heq.1, ih (fun c hc => h1 c (by simp [hc]))
        (fun c hc => h2 c (by simp [hc])) heq.2]

theorem ext_lits_dotfree {e : List Char} (h : e ∈ extLits) : ∀ c ∈ e, c ≠ '.' := by
  simp only [extLits, List.mem_cons, List.not_mem_nil, or_false] at h
  rcases h with h | h | h <;> subst h <;> decide

theorem splitExt_none_of_invalid {name ext : List Char} (hnodot : ∀ c ∈ ext, c ≠ '.')
    (hnotin : ext ∉ extLits) : splitExt (name ++ '.' :: ext) = none := by
  cases hsome : splitExt (name ++ '.' :: ext) with
  | none => rfl
  | some p =>
    exfalso
    obtain ⟨n, e⟩ := p
    obtain ⟨hrun, _, hextmem⟩ := splitExt_eq_some hsome
    have hrev : ext.reverse ++ '.' :: name.reverse = e.reverse ++ '.' :: n.reverse := by
      have := congrArg List.reverse hrun
      simpa [List.reverse_append, List.append_assoc] using this
    have : ext.reverse = e.reverse :=
      eq_of_dotfree_first_component
        (fun c hc => hnodot c (List.mem_reverse.mp hc))
        (fun c hc => ext_lits_dotfree hextmem c (List.mem_reverse.mp hc)) hrev
    exact hnotin (List.reverse_injective this ▸ hextmem)

theorem tryCitation_none_of_head {c : Char} (cs : List Char) (h : c ≠ '{') :
    tryCitation (c :: cs) = none := by
  cases cs with
  | nil =>
    cases c
    simp [tryCitation]
  | cons c2 tail => simp [tryCitation, h]

theorem tryCitation_none_of_second {c2 : Char} (cs : List Char) (h : c2 ≠ '{') :
    tryCitation ('{' :: c2 :: cs) = none := by
  simp [tryCitation, h]

theorem scanCitations_nil_of_forall :
    ∀ (cs : List Char), (∀ n, tryCitation (cs.drop n) = none) →
      scanCitations cs = [] := by
  intro cs
  induction cs with
  | nil => intro _; exact scanCitations_nil
  | cons c tail ih =>
    intro h
    rw [scanCitations_step (h 0)]
    exact ih (fun n => h (n + 1))

theorem tryCitation_none_of_no_obrace {T : List Char}
    (h : ∀ c ∈ T, c ≠ '{') : ∀ n, tryCitation (T.drop n) = none := by
  intro n
  cases hd : T.drop n with
  | nil => simp [tryCitation]
  | cons c cs =>
    refine tryCitation_none_of_head cs (h c ?_)
    have : c ∈ T.drop n := by rw [hd]; simp
    exact List.mem_of_mem_drop this

theorem ws_ne_obrace {c : Char} (h : isWsChar c = true) : c ≠ '{' := by
  intro hc
  subst hc
  simp [isWsChar] at h

theorem nameChar_ne_obrace {c : Char} (h : isNameChar c = true) : c ≠ '{' := by
  intro hc
  subst hc
  simp [isNameChar] at h

theorem scanCitations_invalid_ext {ws1 name ext ws2 : List Char}
    (hws1 : ∀ c ∈ ws1, isWsChar c = true) (hws2 : ∀ c ∈ ws2, isWsChar c = true)
    (hname : name ≠ []) (hnamec : ∀ c ∈ name, isNameChar c = true)
    (hextc : ∀ c ∈ ext, isNameChar c = true) (hnodot : ∀ c ∈ ext, c ≠ '.')
    (hnotin : ext ∉ extLits) :
    scanCitations ('{' :: '{' ::
      (ws1 ++ (name ++ ('.' :: (ext ++ (ws2 ++ ('}' :: '}' :: ([] : List Char)))))))) = [] := by
  apply scanCitations_nil_of_forall
  intro n
  cases n with
  | zero =>
    have e1 : ((ws1 ++ (name ++ ('.' :: (ext ++ (ws2 ++ ('}' :: '}' :: ([] : List Char)))))))
        : List Char).dropWhile isWsChar =
        name ++ ('.' :: (ext ++ (ws2 ++ ('}' :: '}' :: [])))) := by
      rw [dropWhile_append_all _ hws1]
      cases name with
      | nil => exact absurd rfl hname
      | cons c0 t =>
        rw [List.cons_append]
        exact List.dropWhile_cons_of_neg
          (by simp [nameChar_not_ws (hnamec c0 (by simp))])
    have etake := @takeWhile_glue name ext ws2 ('}' :: []) hnamec hextc hws2
    have hsplit := @splitExt_none_of_invalid name ext hnodot hnotin
    simp only [List.drop_zero, tryCitation, e1, etake, hsplit]
  | succ n1 =>
    cases n1 with
    | zero =>
      show tryCitation ('{' ::
        (ws1 ++ (name ++ ('.' :: (ext ++ (ws2 ++ ('}' :: '}' :: [])))))) : List Char) = none
      cases ws1 with
      | cons w wt =>
        exact tryCitation_none_of_second _ (ws_ne_obrace (hws1 w (by simp)))
      | nil =>
        cases name with
        | nil => exact absurd rfl hname
        | cons c0 t =>
          exact tryCitation_none_of_second _ (nameChar_ne_obrace (hnamec c0 (by simp)))
    | succ m =>
      show tryCitation (((ws1 ++ (name ++ ('.' :: (ext ++ (ws2 ++ ('}' :: '}' :: []))))))
        : List Char).drop m) = none
      refine tryCitation_none_of_no_obrace ?_ m
      intro c hc
      simp only [List.mem_append, List.mem_cons, List.not_mem_nil, or_false] at hc
      rcases hc with hc | hc | hc | hc | hc | hc | hc
      · exact ws_ne_obrace (hws1 c hc)
      · exact nameChar_ne_obrace (hnamec c hc)
      · subst hc; decide
      · exact nameChar_ne_obrace (hextc c hc)
      · exact ws_ne_obrace (hws2 c hc)
      · subst hc; decide
      · subst hc; decide

theorem tryCitation_apng (tail : List Char) :
    tryCitation ('{' :: '{' :: 'a' :: '.' :: 'p' :: 'n' :: 'g' :: '}' :: '}' :: tail) =
      some ("a.png", tail) :=
  tryCitation_of_match
    ⟨[], ['a'], ['p', 'n', 'g'], [], rfl, by simp, by simp, by simp, by decide,
      by simp [extLits], by decide⟩

theorem scanCitations_replicate_apng :
    ∀ n : Nat, scanCitations (List.flatten (List.replicate n
        (['{', '{', 'a', '.', 'p', 'n', 'g', '}', '}'] : List Char))) =
      List.replicate n "a.png" := by
  intro n
  induction n with
  | zero => simpa using scanCitations_nil
  | succ m ih =>
    rw [List.replicate_succ, List.flatten_cons]
    simp only [List.cons_append, List.nil_append]
    rw [scanCitations_pos (tryCitation_apng _), ih, List.replicate_succ]

/-! ## The claims -/

/-- **C1.**  For an inbound `Response(TextResponse(Text(body)))` the logic
emits exactly the media requests of the citation scan of `body`: one
`MediaRequest(Media(cap))` per capture in left-to-right scan order, each
with `destination` equal to the text response's source and `source` the
client's node id; the scanner's anchored match coincides exactly with the
declarative citation grammar (`{{` ws* name `.` ext ws* `}}`, ext ∈
{png, jpg, jpeg}, name nonempty without whitespace or braces); a body
whose scan is empty (e.g. only a `.gif` citation) yields no requests. -/
theorem c1_text_response_media_requests (nid : NodeId) (stream : Nat → Nat)
    (idx : Nat) (src dst : NodeId) (sid : SessionId) (body : String) :
    (process_message nid stream idx
        { source := src, destination := dst, session_id := sid,
          content := .response (.textResponse (.text body)) }).1 =
      mediaRequests nid src stream idx (scanCitations body.data) ∧
    ((process_message nid stream idx
        { source := src, destination := dst, session_id := sid,
          content := .response (.textResponse (.text body)) }).1).map
        (fun m => (m.source, m.destination, m.content)) =
      (scanCitations body.data).map (fun cap =>
        (nid, src, MessageType.request (.mediaRequest (.media cap)))) ∧
    (∀ (cs : List Char) (cap : String) (rest : List Char),
      tryCitation cs = some (cap, rest) ↔ CitationMatch cs cap rest) ∧
    (scanCitations body.data = [] →
      (process_message nid stream idx
        { source := src, destination := dst, session_id := sid,
          content := .response (.textResponse (.text body)) }).1 = []) := by
  refine ⟨rfl, mediaRequests_map nid src stream _ idx,
    tryCitation_iff_citationMatch, ?_⟩
  intro h
  show mediaRequests nid src stream idx (scanCitations body.data) = []
  rw [h]
  rfl

/-- Witness for C1 at the body `"{{ x.gif }}"` (a `.gif` citation matches
nothing, so no media request is emitted). -/
theorem c1_witness :
    (process_message 9 (fun i => i) 0
        { source := 5, destination := 9, session_id := 42,
          content := .response (.textResponse (.text "{{ x.gif }}")) }).1 = [] :=
  (c1_text_response_media_requests 9 (fun i => i) 0 5 9 42 "{{ x.gif }}").2.2.2
    (by decide)

/-- **C2.**  The claim fails on the code: a `Quit` received while the
logic thread waits in the scripted phase only breaks the `for` loop and
falls through into the reactive loop, so `run` does not return — the
thread goes on to process a further inbound message and emit a further
outbound message (here the `Unsupported` reply), ending blocked in the
reactive select rather than terminated. -/
theorem c2_quit_in_scripted_phase_enters_reactive_loop :
    clientRun 1 (fun i => i) [(5, .textRequest .list)]
        [.quitCmd,
         .inbound ⟨7, 1, 42, .request (.textRequest .list)⟩] =
      ([⟨1, 5, 0, .request (.textRequest .list)⟩,
        ⟨1, 7, 42, .error (.unsupported (.textRequest .list))⟩],
       .blocked) := by
  rfl

/-- **C3.**  An inbound `Request(r)` produces exactly one outbound
`Error(Unsupported(r))`, with `r` echoed unchanged, the inbound session
id, destination the inbound source, and source the client's node id. -/
theorem c3_request_unsupported_reply (nid : NodeId) (stream : Nat → Nat)
    (idx : Nat) (src dst : NodeId) (sid : SessionId) (r : RequestType) :
    process_message nid stream idx
        { source := src, destination := dst, session_id := sid,
          content := .request r } =
      ([⟨nid, src, sid, .error (.unsupported r)⟩], idx) :=
  rfl

/-- **C4.**  The claim fails on the code: with a scripted list of length 2
and no inbound traffic and no Quit, the post-send `select_biased!` (which
has no `default` arm) blocks forever after the first send, so exactly one
outbound message is emitted, not two. -/
theorem c4_scripted_phase_blocks_after_first_send :
    clientRun 1 (fun i => i)
        [(5, .textRequest (.text "doc")), (6, .mediaRequest .list)] [] =
      ([⟨1, 5, 0, .request (.textRequest (.text "doc"))⟩], .blocked) ∧
    (clientRun 1 (fun i => i)
        [(5, .textRequest (.text "doc")), (6, .mediaRequest .list)] []).1.length
      = 1 :=
  ⟨rfl, rfl⟩

/-- **C5 counterexample.**  A body in which the same citation `a.png`
appears twice yields two media requests for it, not one: captures are not
deduplicated. -/
theorem c5_counterexample :
    ((process_message 1 (fun i => i) 0
        { source := 5, destination := 1, session_id := 99,
          content := .response (.textResponse (.text "{{a.png}}{{a.png}}")) }).1).map
        (fun m => m.content) =
      [.request (.mediaRequest (.media "a.png")),
       .request (.mediaRequest (.media "a.png"))] ∧
    ¬ ((process_message 1 (fun i => i) 0
        { source := 5, destination := 1, session_id := 99,
          content := .response (.textResponse (.text "{{a.png}}{{a.png}}")) }).1).length
      = 1 := by
  constructor
  · decide
  · decide

/-- **C5 amended.**  One media request per citation occurrence, duplicates
preserved in scan order: a body made of `n` copies of `{{a.png}}` yields
exactly the `n` requests for `a.png`, in order, with consecutive fresh
session ids. -/
theorem c5_amended_duplicates_preserved (nid src : NodeId) (stream : Nat → Nat)
    (idx : Nat) (n : Nat) :
    (process_text_response nid stream idx src
        (.text (String.mk (List.flatten (List.replicate n
          (['{', '{', 'a', '.', 'p', 'n', 'g', '}', '}'] : List Char)))))).1 =
      mediaRequests nid src stream idx (List.replicate n "a.png") := by
  have hmk : ∀ X : List Char, (String.mk X).data = X := fun X => rfl
  simp only [process_text_response, hmk, scanCitations_replicate_apng]

/-- **C6.**  The node assembly's `run` (the `DibServerTrait` default
method): installs the panic hook, spawns the three named worker threads,
blocks on the supervisor queue, and on `Quit` fans out `Quit` in the
fixed order listener, logic, transmitter, joins the three handles and
returns; a failed fan-out send panics; an empty supervisor schedule
leaves it blocked. -/
theorem c6_node_assembly_run (id : Nat) (rest : List SupOutcome)
    (lOk gOk tOk : Bool) :
    dibServerRun id (.quitCmd :: rest) true true true =
      ([.installPanicHook,
        .spawnThread ("client_" ++ toString id ++ "_listener"),
        .spawnThread ("client_" ++ toString id ++ "_transmitter"),
        .spawnThread ("client_" ++ toString id ++ "_logic"),
        .sendQuit "listener", .sendQuit "logic", .sendQuit "transmitter",
        .joinThread ("client_" ++ toString id ++ "_listener"),
        .joinThread ("client_" ++ toString id ++ "_logic"),
        .joinThread ("client_" ++ toString id ++ "_transmitter")], .returned) ∧
    ((lOk && gOk && tOk) = false →
      (dibServerRun id (.quitCmd :: rest) lOk gOk tOk).2 = .panicked) ∧
    (dibServerRun id [] lOk gOk tOk).2 = .blocked := by
  refine ⟨rfl, ?_, rfl⟩
  intro h
  cases lOk <;> cases gOk <;> cases tOk <;>
    first
      | rfl
      | exact absurd h (by decide)

/-- Witness for C6: a failed fan-out send to the listener is fatal. -/
theorem c6_witness : (dibServerRun 3 [.quitCmd] false true true).2 = .panicked :=
  (c6_node_assembly_run 3 [] false true true).2.1 (by decide)

/-- **C7.**  Inbound `Error(e)` and the `NotFound` variants of text and
media responses emit no outbound message and leave the generator cursor
untouched (the code only logs). -/
theorem c7_error_and_notfound_emit_nothing (nid : NodeId) (stream : Nat → Nat)
    (idx : Nat) (src dst : NodeId) (sid : SessionId) :
    (∀ e : ErrorType,
      process_message nid stream idx
        { source := src, destination := dst, session_id := sid,
          content := .error e } = ([], idx)) ∧
    (∀ name : String,
      process_message nid stream idx
        { source := src, destination := dst, session_id := sid,
          content := .response (.textResponse (.notFound name)) } = ([], idx)) ∧
    (∀ name : String,
      process_message nid stream idx
        { source := src, destination := dst, session_id := sid,
          content := .response (.mediaResponse (.notFound name)) } = ([], idx)) :=
  ⟨fun _ => rfl, fun _ => rfl, fun _ => rfl⟩

/-- **C8.**  Every message the logic thread ever hands to the transmitter
— scripted request, media follow-up, or `Unsupported` reply — carries
`source` equal to the client's own node id, over any script and any
schedule of select outcomes. -/
theorem c8_outbound_source_eq_node_id (nid : NodeId) (stream : Nat → Nat)
    (actions : List (NodeId × RequestType)) (events : List SelectOutcome)
    (m : Message) (hm : m ∈ (clientRun nid stream actions events).1) :
    m.source = nid :=
  runScripted_source hm

/-- Witness for C8 at a concrete one-action run. -/
theorem c8_witness :
    (⟨1, 5, 0, MessageType.request (.textRequest .list)⟩ : Message).source = 1 :=
  c8_outbound_source_eq_node_id 1 (fun i => i) [(5, .textRequest .list)] []
    ⟨1, 5, 0, .request (.textRequest .list)⟩ (by decide)

/-- **C9.**  The media sink decodes the buffer (decode failure panics the
sink call), writes the image to `<tempdir>/image_<n>.png` with `n` in
`[0, 100]` drawn from the generator, and spawns the platform viewer —
`cmd /C` on Windows, `open` on macOS, `xdg-open` on Linux — as a detached
process; a spawn failure is returned to the caller as an error result. -/
theorem c9_media_sink_behaviour (tempDir : String) (draw : Nat)
    (saveOk spawnOk : Bool) (os : Os) :
    randomRange0To100 draw ≤ 100 ∧
    open_png_from_bytes os tempDir false draw saveOk spawnOk =
      ([.decodeImage], .panicked) ∧
    open_png_from_bytes .linux tempDir true draw true spawnOk =
      ([.decodeImage,
        .saveImage (tempDir ++ "/image_" ++ toString (randomRange0To100 draw) ++ ".png"),
        .spawnViewer "xdg-open"
          [tempDir ++ "/image_" ++ toString (randomRange0To100 draw) ++ ".png"]],
       if spawnOk then .ok else .ioError) ∧
    open_png_from_bytes .macos tempDir true draw true spawnOk =
      ([.decodeImage,
        .saveImage (tempDir ++ "/image_" ++ toString (randomRange0To100 draw) ++ ".png"),
        .spawnViewer "open"
          [tempDir ++ "/image_" ++ toString (randomRange0To100 draw) ++ ".png"]],
       if spawnOk then .ok else .ioError) ∧
    open_png_from_bytes .windows tempDir true draw true spawnOk =
      ([.decodeImage,
        .saveImage (tempDir ++ "/image_" ++ toString (randomRange0To100 draw) ++ ".png"),
        .spawnViewer "cmd"
          ["/C", tempDir ++ "/image_" ++ toString (randomRange0To100 draw) ++ ".png"]],
       if spawnOk then .ok else .ioError) := by
  refine ⟨?_, rfl, ?_, ?_, ?_⟩
  · have : draw % 101 < 101 := Nat.mod_lt _ (by norm_num)
    simp only [randomRange0To100]
    omega
  · cases spawnOk <;> rfl
  · cases spawnOk <;> rfl
  · cases spawnOk <;> rfl

/-- **C10.**  Extension matching is literal, hence case-sensitive: a
citation `{{ ws1 name . ext ws2 }}` whose extension is any well-formed
token other than the lowercase `png`/`jpg`/`jpeg` — in particular any
case variant such as `PNG` or `Jpg` — matches no citation, and a body
consisting of such a citation produces no media request. -/
theorem c10_extension_case_sensitive (nid : NodeId) (stream : Nat → Nat)
    (idx : Nat) (src : NodeId) (ws1 name ext ws2 : List Char)
    (hws1 : ∀ c ∈ ws1, isWsChar c = true) (hws2 : ∀ c ∈ ws2, isWsChar c = true)
    (hname : name ≠ []) (hnamec : ∀ c ∈ name, isNameChar c = true)
    (hextc : ∀ c ∈ ext, isNameChar c = true) (hnodot : ∀ c ∈ ext, c ≠ '.')
    (hnotin : ext ∉ extLits) :
    scanCitations ('{' :: '{' ::
      (ws1 ++ (name ++ ('.' :: (ext ++ (ws2 ++ ('}' :: '}' :: []))))))) = [] ∧
    (process_text_response nid stream idx src (.text (String.mk ('{' :: '{' ::
      (ws1 ++ (name ++ ('.' :: (ext ++ (ws2 ++ ('}' :: '}' :: [])))))))))).1 = [] := by
  have hscan := scanCitations_invalid_ext hws1 hws2 hname hnamec hextc hnodot hnotin
  have hmk : ∀ X : List Char, (String.mk X).data = X := fun X => rfl
  exact ⟨hscan, by simp only [process_text_response, hmk, hscan, mediaRequests]⟩

/-- Witness for C10 at the citation `{{ a.PNG }}`. -/
theorem c10_witness :
    scanCitations ("{{ a.PNG }}".data) = [] ∧
    (process_text_response 1 (fun i => i) 0 5 (.text "{{ a.PNG }}")).1 = [] :=
  c10_extension_case_sensitive 1 (fun i => i) 0 5 [' '] ['a'] ['P', 'N', 'G']
    [' '] (by decide) (by decide) (by decide) (by decide) (by decide)
    (by decide) (by decide)
